import Mathlib

/-!
Verification of the pack buildpack tooling core: the compatibility engine
(mixin checks), the buildpack package builder, the ephemeral builder
composer and the build orchestrator.

Modelling conventions:
* Go strings are modelled as `List Char` (`Str`); Go byte-lexicographic
  comparison (`sort.Strings`) is modelled by the structural comparator
  `lexLe` and the structural sort `sortStrings`.
* Fallible external collaborators (image store, blob download, lifecycle)
  are modelled by explicit oracle parameters; the observable calls the
  core makes against them are recorded in an event log.
* `stringset.FromSlice` builds a membership set from a slice; set
  membership over a slice is modelled by `List.contains`.
-/

/-- Go strings, modelled as lists of characters. -/
abbrev Str := List Char

/-- Coercion from Lean string literals into the `Str` model. -/
def str (s : String) : Str := s.data

/-- Byte-lexicographic order on strings, as used by Go `sort.Strings`. -/
def lexLe : Str → Str → Bool
  | [], _ => true
  | _ :: _, [] => false
  | a :: as, b :: bs => if a < b then true else if b < a then false else lexLe as bs

/-- Insert a string into a list sorted by `lexLe`, keeping it sorted. -/
def insertSorted (x : Str) : List Str → List Str
  | [] => [x]
  | y :: ys => if lexLe x y then x :: y :: ys else y :: insertSorted x ys

/-- Sorting a list of strings, modelling the effect of Go `sort.Strings`
(the output characterisation — a sorted list with the same members — is
all call sites depend on). -/
def sortStrings : List Str → List Str
  | [] => []
  | x :: xs => insertSorted x (sortStrings xs)

/-- `findMissing` from the orchestrator source: builds a set from
`actual` (`stringset.FromSlice`) and collects, in order, every element of
`required` that is not a member of that set. -/
def findMissing (actual required : List Str) : List Str :=
  match required with
  | [] => []
  | m :: rest =>
    if actual.contains m then findMissing actual rest
    else m :: findMissing actual rest

/-- `validateCommonMixins` from the orchestrator source: computes
`findMissing(run.CommonMixins, builder.CommonMixins)` and, when the
result is non-empty, sorts it and fails with an error enumerating it
(the error is modelled as the sorted missing list; formatting into the
textual message is external presentation). -/
def validateCommonMixins (builderCommon runCommon : List Str) : Option (List Str) :=
  let missing := findMissing runCommon builderCommon
  if missing.length > 0 then some (sortStrings missing) else none

/-- `assembleAvailableMixins` from the orchestrator source: the run-image
common mixins that are also builder common mixins, followed by the
builder build-only mixins and the run-image run-only mixins. -/
def assembleAvailableMixins (builderCommon buildOnly runCommon runOnly : List Str) : List Str :=
  let inBoth := runCommon.filter (fun m => builderCommon.contains m)
  inBoth ++ (buildOnly ++ runOnly)

/-- Go `strings.Split(s, "@")`: splits the string at every occurrence of
the separator character; always returns at least one (possibly empty)
segment. -/
def goSplitAt : Str → List Str
  | [] => [[]]
  | c :: rest =>
    match goSplitAt rest with
    | [] => [[c]]
    | p :: ps => if c = '@' then [] :: p :: ps else (c :: p) :: ps

/-- The literal string `latest`. -/
def latestStr : Str := str "latest"

/-- `parseBuildpack` from the orchestrator source: split the token on
`@`; with exactly two parts, a version of `latest` is treated as
unspecified (empty), otherwise the second part is the version; with any
other number of parts the version is empty and the id is the first
part. -/
def parseBuildpack (bp : Str) : Str × Str :=
  match goSplitAt bp with
  | [a, b] => if b = latestStr then (a, []) else (a, b)
  | parts => (parts.headD [], [])

/-- Proxy settings, as in the orchestrator source. -/
structure ProxyConfig where
  HTTPProxy : Str
  HTTPSProxy : Str
  NoProxy : Str
deriving DecidableEq, Repr

/-- The process environment: a partial map from variable names to
values. Go `os.LookupEnv` is the map itself; Go `os.Getenv` returns the
empty string for an unset variable. -/
def getenvDefault (env : Str → Option Str) (key : Str) : Str :=
  (env key).getD []

/-- `processProxyConfig` from the orchestrator source: an explicit
config (non-nil) is returned as-is; otherwise each setting is taken from
the upper-case variable when it is set (`LookupEnv`), falling back to
`Getenv` of the lower-case variable. -/
def processProxyConfig (config : Option ProxyConfig) (env : Str → Option Str) : ProxyConfig :=
  match config with
  | some c => c
  | none =>
    let httpProxy := match env (str "HTTP_PROXY") with
      | some v => v
      | none => getenvDefault env (str "http_proxy")
    let httpsProxy := match env (str "HTTPS_PROXY") with
      | some v => v
      | none => getenvDefault env (str "https_proxy")
    let noProxy := match env (str "NO_PROXY") with
      | some v => v
      | none => getenvDefault env (str "no_proxy")
    { HTTPProxy := httpProxy, HTTPSProxy := httpsProxy, NoProxy := noProxy }

/-- Buildpack identity (`dist.BuildpackInfo`): id and version. -/
structure BuildpackInfo where
  ID : Str
  Version : Str
deriving DecidableEq, Repr

/-- A stack: compatibility namespace id plus declared mixins (`dist.Stack`). -/
structure Stack where
  ID : Str
  Mixins : List Str
deriving DecidableEq, Repr

/-- A reference to a buildpack by identity (`dist.BuildpackRef`). -/
structure BuildpackRef where
  Info : BuildpackInfo
deriving DecidableEq, Repr

/-- One ordered group of buildpack references (`dist.OrderEntry`). -/
structure OrderEntry where
  Group : List BuildpackRef
deriving DecidableEq, Repr

/-- A buildpack descriptor (`dist.BuildpackDescriptor`): identity,
declared stacks and meta-buildpack order. The raw layer content is not
modelled; layer construction appears as events in the effect log. -/
structure BuildpackDescriptor where
  Info : BuildpackInfo
  Stacks : List Stack
  Order : List OrderEntry
deriving DecidableEq, Repr

/-- `dist.BuildpackInfo.FullName`: `id@version`. -/
def fullName (i : BuildpackInfo) : Str := i.ID ++ '@' :: i.Version

/-- Union of two mixin lists: the first list followed by the members of
the second not already present. -/
def mixinUnion (a b : List Str) : List Str := a ++ b.filter (fun m => !(a.contains m))

/-- Modelled from the spec: `stack.MergeCompatible` (§4.1
MergeCompatibleStacks; the repository package internal/stack is not in
this source slice). Returns the stacks present by ID in both sequences,
each carrying the pairwise union of the mixins declared for that ID. -/
def mergeCompatible (a b : List Stack) : List Stack :=
  a.filterMap (fun sa =>
    match b.find? (fun sb => sb.ID == sa.ID) with
    | some sb => some { ID := sa.ID, Mixins := mixinUnion sa.Mixins sb.Mixins }
    | none => none)

/-- The `PackageBuilder` state from src/internal/buildpackage/builder.go:
the main buildpack (set by `SetBuildpack`) and the added dependencies. -/
structure PackageBuilder where
  buildpack : Option BuildpackDescriptor
  dependencies : List BuildpackDescriptor
deriving DecidableEq, Repr

/-- `NewBuilder`: empty state. -/
def newBuilder : PackageBuilder := { buildpack := none, dependencies := [] }

/-- `SetBuildpack`. -/
def setBuildpack (p : PackageBuilder) (bp : BuildpackDescriptor) : PackageBuilder :=
  { p with buildpack := some bp }

/-- `AddDependency`. -/
def addDependency (p : PackageBuilder) (bp : BuildpackDescriptor) : PackageBuilder :=
  { p with dependencies := p.dependencies ++ [bp] }

/-- The dependency-stack intersection loop of `Save` (builder.go lines
55-65): fold `stack.MergeCompatible` over the dependencies, failing as
soon as the running stack list becomes empty. Returns the final stack
list on success. -/
def checkDepStacks (bpName : Str) : List Stack → List BuildpackDescriptor → Except Str (List Stack)
  | stks, [] => .ok stks
  | stks, d :: rest =>
    let merged := mergeCompatible stks d.Stacks
    if merged.isEmpty then
      .error (str "buildpack " ++ bpName ++ str " does not support any stacks from " ++ fullName d.Info)
    else checkDepStacks bpName merged rest

/-- The validation phase of `Save` (builder.go lines 40-65), which is
pure: the main buildpack must be set; it must support at least one stack
or have an order; every dependency must keep the compatible-stack
intersection non-empty. On success returns the main descriptor and the
final stack list. -/
def validatePackage (p : PackageBuilder) : Except Str (BuildpackDescriptor × List Stack) :=
  match p.buildpack with
  | none => .error (str "buildpack must be set")
  | some bp =>
    if bp.Stacks.isEmpty && bp.Order.isEmpty then
      .error (str "buildpack " ++ fullName bp.Info ++ str " must support at least one stack or have an order")
    else
      match checkDepStacks (fullName bp.Info) bp.Stacks p.dependencies with
      | .error e => .error e
      | .ok stks => .ok (bp, stks)

/-- The observable external calls of the package builder and composer:
image-handle creation, label writes, temp-dir management, per-buildpack
layer construction, and image persistence. -/
inductive Eff where
  | newImage (repoName : Str) (isLocal : Bool)
  | setLabel (key : Str)
  | tempDir
  | layerTar (info : BuildpackInfo)
  | addLayer (info : BuildpackInfo)
  | diffID (info : BuildpackInfo)
  | removeTmp
  | imageSave
deriving DecidableEq, Repr

/-- Run a planned sequence of external calls against an oracle `env`
(the n-th call made succeeds iff `env n` is true). Returns the first
failing call, if any, together with the calls completed before it. -/
def execCalls (env : Nat → Bool) : List Eff → Nat → Option Eff × List Eff
  | [], _ => (none, [])
  | e :: rest, k =>
    if env k then
      let r := execCalls env rest (k + 1)
      (r.1, e :: r.2)
    else (some e, [])

/-- The package metadata label key. -/
def metadataLabel : Str := str "io.buildpacks.buildpackage.metadata"

/-- The buildpack layers label key. -/
def buildpackLayersLabel : Str := str "io.buildpacks.buildpack.layers"

/-- The external calls `Save` performs after validation, in source
order (builder.go lines 67-112): create the image handle (local unless
publishing), write the metadata label, create the temp directory, then
for each buildpack — dependencies first, the main buildpack last —
serialize its layer tar, add the layer and compute its diff ID; finally
write the layers label and persist the image. -/
def saveCalls (p : PackageBuilder) (bp : BuildpackDescriptor) (repoName : Str) (publish : Bool) : List Eff :=
  [Eff.newImage repoName (!publish), Eff.setLabel metadataLabel, Eff.tempDir] ++
    ((p.dependencies ++ [bp]).flatMap
      (fun d => [Eff.layerTar d.Info, Eff.addLayer d.Info, Eff.diffID d.Info])) ++
    [Eff.setLabel buildpackLayersLabel, Eff.imageSave]

/-- A short name for an external call, used in failure messages
(standing in for the per-step wrapped error text of the source). -/
def effName : Eff → Str
  | .newImage _ _ => str "creating image"
  | .setLabel _ => str "setting label"
  | .tempDir => str "creating temp dir"
  | .layerTar _ => str "creating layer tar"
  | .addLayer _ => str "adding layer tar"
  | .diffID _ => str "getting content hashes"
  | .removeTmp => str "removing temp dir"
  | .imageSave => str "saving image"

/-- `PackageBuilder.Save` from src/internal/buildpackage/builder.go:
validation runs first and is pure; the external calls then run in
source order, stopping at the first failure; the deferred temp-dir
removal runs whenever the temp directory was created. Returns the
result together with the log of completed external calls. -/
def packageSave (p : PackageBuilder) (repoName : Str) (publish : Bool) (env : Nat → Bool) :
    Except Str Unit × List Eff :=
  match validatePackage p with
  | .error e => (.error e, [])
  | .ok (bp, _) =>
    let r := execCalls env (saveCalls p bp repoName publish) 0
    let log := if r.2.contains Eff.tempDir then r.2 ++ [Eff.removeTmp] else r.2
    match r.1 with
    | some e => (.error (str "external call failed: " ++ effName e), log)
    | none => (.ok (), log)

/-- Go `strings.Join` with a separator. -/
def strJoin (sep : Str) : List Str → Str
  | [] => []
  | [x] => x
  | x :: xs => x ++ sep ++ strJoin sep xs

/-- Modelled from the spec: the Package Builder state of §4.2 — a
default buildpack identity, the included buildpacks and the explicitly
declared supported stacks. The revision of internal/buildpackage
implementing `SetDefaultBuildpack` / `AddBuildpack` / `AddStack` that
§4.2 and src/internal/buildpackage/builder_test.go describe is not part
of this source slice; only its testsuite is, so the behavior is modelled
from the spec steps 1-10 with the error texts the testsuite expects. -/
structure SpecPackageBuilder where
  defaultInfo : Option BuildpackInfo
  buildpacks : List BuildpackDescriptor
  stackList : List Stack
deriving DecidableEq, Repr

/-- Modelled from the spec: `SetDefaultBuildpack` — pure state mutation. -/
def setDefaultBuildpack (p : SpecPackageBuilder) (i : BuildpackInfo) : SpecPackageBuilder :=
  { p with defaultInfo := some i }

/-- Modelled from the spec: `AddBuildpack` — pure state mutation. -/
def addBuildpack (p : SpecPackageBuilder) (bp : BuildpackDescriptor) : SpecPackageBuilder :=
  { p with buildpacks := p.buildpacks ++ [bp] }

/-- Modelled from the spec: `AddStack` — pure state mutation. -/
def addStack (p : SpecPackageBuilder) (s : Stack) : SpecPackageBuilder :=
  { p with stackList := p.stackList ++ [s] }

/-- First stack ID that repeats in the declared stack sequence, scanning
left to right with the set of IDs seen so far. -/
def firstDuplicateId (seen : List Str) : List Stack → Option Str
  | [] => none
  | s :: rest => if seen.contains s.ID then some s.ID else firstDuplicateId (s.ID :: seen) rest

/-- Modelled from the spec: step 5 of §4.2 `Save` for one declared stack
and one included buildpack — a meta-buildpack (non-empty order) is
skipped; otherwise the buildpack must declare an entry for the stack ID,
and every mixin that entry requires must be among the declared mixins of
the stack, else the failure lists the missing ones sorted. -/
def specCheckBuildpackStack (bp : BuildpackDescriptor) (s : Stack) : Option Str :=
  if !bp.Order.isEmpty then none
  else
    match bp.Stacks.find? (fun e => e.ID == s.ID) with
    | none => some (str "buildpack " ++ fullName bp.Info ++ str " does not support stack " ++ s.ID)
    | some entry =>
      let missing := findMissing s.Mixins entry.Mixins
      if missing.isEmpty then none
      else some (str "buildpack " ++ fullName bp.Info ++ str " requires missing mixin(s): " ++
        strJoin (str ", ") (sortStrings missing))

/-- Modelled from the spec: the validation phase (steps 1-5) of §4.2
`Save`, in order: default must be set; the default identity must be
among the included buildpacks; no declared stack ID may repeat; the
declared stack set may be empty only when the default buildpack has a
meta-buildpack order; each declared stack must be supported, with its
mixins, by every non-meta included buildpack. -/
def specValidate (p : SpecPackageBuilder) : Option Str :=
  match p.defaultInfo with
  | none => some (str "a default buildpack must be set")
  | some d =>
    match p.buildpacks.find? (fun b => b.Info == d) with
    | none => some (str "selected default " ++ fullName d ++ str " is not present")
    | some defaultBp =>
      match firstDuplicateId [] p.stackList with
      | some i => some (str "stack " ++ i ++ str " was specified more than once")
      | none =>
        if p.stackList.isEmpty && defaultBp.Order.isEmpty then
          some (str "must specify at least one supported stack")
        else
          p.stackList.findSome? (fun s =>
            p.buildpacks.findSome? (fun bp => specCheckBuildpackStack bp s))

/-- Modelled from the spec: the external calls of §4.2 `Save` steps
6-10, in order — create the image handle, write the metadata label, add
one content-addressed layer per included buildpack (dependencies first,
the default last), write the layers label, persist exactly once. -/
def specSaveCalls (p : SpecPackageBuilder) (d : BuildpackInfo) (repoName : Str) (publish : Bool) : List Eff :=
  [Eff.newImage repoName (!publish), Eff.setLabel metadataLabel] ++
    (((p.buildpacks.filter (fun b => !(b.Info == d))) ++ p.buildpacks.filter (fun b => b.Info == d)).flatMap
      (fun b => [Eff.layerTar b.Info, Eff.addLayer b.Info, Eff.diffID b.Info])) ++
    [Eff.setLabel buildpackLayersLabel, Eff.imageSave]

/-- Modelled from the spec: §4.2 `Save` — validation (steps 1-5) runs
first and is pure; only then do the I/O-producing steps 6-10 run,
stopping at the first failure, so a configuration error never produces
any image effect. -/
def specSave (p : SpecPackageBuilder) (repoName : Str) (publish : Bool) (env : Nat → Bool) :
    Except Str Unit × List Eff :=
  match specValidate p, p.defaultInfo with
  | some e, _ => (.error e, [])
  | none, none => (.error (str "a default buildpack must be set"), [])
  | none, some d =>
    let r := execCalls env (specSaveCalls p d repoName publish) 0
    match r.1 with
    | some e => (.error (str "external call failed: " ++ effName e), r.2)
    | none => (.ok (), r.2)

/-- An in-memory image handle: the current reference and the content it
will be saved under. -/
structure ImageHandle (α : Type) where
  name : Str
  content : α
deriving DecidableEq, Repr

/-- Modelled from the spec (§6 image store contract): the local image
store as an association list from reference to stored content; `save`
persists the handle content under its current reference (newest entry
shadows older ones). -/
def storeSave {α : Type} (store : List (Str × α)) (img : ImageHandle α) : List (Str × α) :=
  (img.name, img.content) :: store

/-- Modelled from the spec (§6 image store contract): `fetch` is lookup
by reference. -/
def storeFetch {α : Type} (store : List (Str × α)) (ref : Str) : Option α :=
  (store.find? (fun e => e.1 == ref)).map (fun e => e.2)

/-- `imgutil.Image.Rename`: changes only the in-memory reference of the
handle; the store is untouched. -/
def renameImage {α : Type} (img : ImageHandle α) (newName : Str) : ImageHandle α :=
  { img with name := newName }

/-- The synthetic scratch reference `pack.local/builder/<suffix>:latest`
built by `createEphemeralBuilder` (the suffix stands for the hex of the
random string). -/
def scratchNameOf (suffix : Str) : Str := str "pack.local/builder/" ++ suffix ++ str ":latest"

/-- `createEphemeralBuilder` from the orchestrator source: renames the
base builder image handle in place to the synthetic scratch reference,
applies the builder composition (env injection, added buildpacks, order
override — abstracted as the content transformation `compose`), and
saves, persisting the composed content under the scratch reference.
Returns the handle (the renamed base handle) and the updated store. -/
def createEphemeralBuilder {α : Type} (base : ImageHandle α) (store : List (Str × α))
    (suffix : Str) (compose : α → α) : ImageHandle α × List (Str × α) :=
  let renamed := renameImage base (scratchNameOf suffix)
  let composed : ImageHandle α := { renamed with content := compose renamed.content }
  (composed, storeSave store composed)

/-- Outcomes of the external collaborator calls the orchestrator `Build`
makes, in source order; each step either succeeds or makes `Build`
return its wrapped error. `runImageName` is the resolved run image name
(empty when none resolves) and `scratchName` the reference of the
composed ephemeral builder. -/
structure BuildDeps where
  imageRefOk : Bool
  appPathOk : Bool
  builderRefOk : Bool
  fetchBuilderOk : Bool
  stackImageOk : Bool
  buildImageOk : Bool
  builderImageOk : Bool
  runImageName : Str
  runImageOk : Bool
  buildpacksOk : Bool
  mixinsOk : Bool
  ephemeralOk : Bool
  scratchName : Str
  platformSupported : Bool
  lifecycleOk : Bool
deriving DecidableEq, Repr

/-- The observable effects of `Build` modelled for cleanup analysis: the
lifecycle execution hand-off and the docker removal of an image. -/
inductive BuildEff where
  | lifecycleExecute
  | imageRemove (name : Str)
deriving DecidableEq, Repr

/-- `Client.Build` from the orchestrator source, as a sequence of
early-return steps: target-reference parsing, app-path processing,
builder-name processing, builder fetch, stack/build/builder capability
wrapping, run-image resolution and validation, buildpack processing,
mixin validation, ephemeral-builder composition. Immediately after the
composition succeeds the deferred docker removal of the scratch image is
registered, so it is appended to the effect log on every later exit —
after the platform API check and after the lifecycle hand-off alike. -/
def build (d : BuildDeps) : Except Str Unit × List BuildEff :=
  if !d.imageRefOk then (.error (str "invalid image name"), []) else
  if !d.appPathOk then (.error (str "invalid app path"), []) else
  if !d.builderRefOk then (.error (str "invalid builder"), []) else
  if !d.fetchBuilderOk then (.error (str "failed to fetch builder image"), []) else
  if !d.stackImageOk then (.error (str "stack image"), []) else
  if !d.buildImageOk then (.error (str "build image"), []) else
  if !d.builderImageOk then (.error (str "builder image"), []) else
  if d.runImageName.isEmpty then (.error (str "run image must be specified"), []) else
  if !d.runImageOk then (.error (str "invalid run-image"), []) else
  if !d.buildpacksOk then (.error (str "processing buildpacks"), []) else
  if !d.mixinsOk then (.error (str "validating stack mixins"), []) else
  if !d.ephemeralOk then (.error (str "creating ephemeral builder"), []) else
  let tail : Except Str Unit × List BuildEff :=
    if !d.platformSupported then (.error (str "incompatible Platform API"), [])
    else if d.lifecycleOk then (.ok (), [BuildEff.lifecycleExecute])
    else (.error (str "lifecycle error"), [BuildEff.lifecycleExecute])
  (tail.1, tail.2 ++ [BuildEff.imageRemove d.scratchName])

/-- Whether `Build` reaches a successful ephemeral-builder composition:
every step up to and including `createEphemeralBuilder` succeeds. -/
def composedSuccessfully (d : BuildDeps) : Bool :=
  d.imageRefOk && d.appPathOk && d.builderRefOk && d.fetchBuilderOk &&
  d.stackImageOk && d.buildImageOk && d.builderImageOk &&
  !d.runImageName.isEmpty && d.runImageOk && d.buildpacksOk &&
  d.mixinsOk && d.ephemeralOk

/-- Sorted-ness (non-strict, by `lexLe`) of a string list. -/
abbrev StrSorted (l : List Str) : Prop := List.Pairwise (fun a b => lexLe a b = true) l

theorem lexLe_total (a b : Str) : lexLe a b = true ∨ lexLe b a = true := by
  induction a generalizing b with
  | nil => left; rfl
  | cons x xs ih =>
    cases b with
    | nil => right; rfl
    | cons y ys =>
      by_cases hxy : x < y
      · left; simp [lexLe, hxy]
      · by_cases hyx : y < x
        · right; simp [lexLe, hyx]
        · rcases ih ys with h | h
          · left; simp [lexLe, hxy, hyx, h]
          · right; simp [lexLe, hxy, hyx, h]

theorem lexLe_trans (a : Str) : ∀ b c : Str,
    lexLe a b = true → lexLe b c = true → lexLe a c = true := by
  induction a with
  | nil => intro b c _ _; rfl
  | cons x xs ih =>
    intro b c hab hbc
    cases b with
    | nil => simp [lexLe] at hab
    | cons y ys =>
      cases c with
      | nil => simp [lexLe] at hbc
      | cons z zs =>
        by_cases hxy : x < y
        · by_cases hyz : y < z
          · simp [lexLe, lt_trans hxy hyz]
          · by_cases hzy : z < y
            · simp [lexLe, hyz, hzy] at hbc
            · have hyz2 : y = z := le_antisymm (not_lt.mp hzy) (not_lt.mp hyz)
              simp [lexLe, hyz2 ▸ hxy]
        · by_cases hyx : y < x
          · simp [lexLe, hxy, hyx] at hab
          · have hxy2 : x = y := le_antisymm (not_lt.mp hyx) (not_lt.mp hxy)
            simp [lexLe, hxy, hyx] at hab
            by_cases hyz : y < z
            · simp [lexLe, hxy2 ▸ hyz]
            · by_cases hzy : z < y
              · simp [lexLe, hyz, hzy] at hbc
              · simp [lexLe, hyz, hzy] at hbc
                have hxz : ¬ x < z := by rw [hxy2]; exact hyz
                have hzx : ¬ z < x := by rw [hxy2]; exact hzy
                simp [lexLe, hxz, hzx]
                exact ih ys zs hab hbc

theorem mem_insertSorted (x : Str) (l : List Str) (m : Str) :
    m ∈ insertSorted x l ↔ m = x ∨ m ∈ l := by
  induction l with
  | nil => simp [insertSorted]
  | cons y ys ih =>
    by_cases h : lexLe x y = true
    · simp [insertSorted, h]
    · simp [insertSorted, h, ih]; tauto

theorem sorted_insertSorted (x : Str) (l : List Str) (hl : StrSorted l) :
    StrSorted (insertSorted x l) := by
  induction l with
  | nil => simp [insertSorted, StrSorted]
  | cons y ys ih =>
    rcases List.pairwise_cons.mp hl with ⟨hy, hys⟩
    by_cases h : lexLe x y = true
    · simp only [insertSorted, if_pos h]
      refine List.pairwise_cons.mpr ⟨?_, hl⟩
      intro b hb
      rcases List.mem_cons.mp hb with hb | hb
      · exact hb ▸ h
      · exact lexLe_trans x y b h (hy b hb)
    · simp only [insertSorted, if_neg h]
      refine List.pairwise_cons.mpr ⟨?_, ih hys⟩
      intro b hb
      rcases (mem_insertSorted x ys b).mp hb with hb | hb
      · rcases lexLe_total x y with h1 | h1
        · exact absurd h1 h
        · rw [hb]; exact h1
      · exact hy b hb

theorem mem_sortStrings (l : List Str) (m : Str) : m ∈ sortStrings l ↔ m ∈ l := by
  induction l with
  | nil => simp [sortStrings]
  | cons x xs ih => simp [sortStrings, mem_insertSorted, ih]

theorem sorted_sortStrings (l : List Str) : StrSorted (sortStrings l) := by
  induction l with
  | nil => simp [sortStrings, StrSorted]
  | cons x xs ih => exact sorted_insertSorted x (sortStrings xs) ih

theorem mem_findMissing (actual required : List Str) (m : Str) :
    m ∈ findMissing actual required ↔ m ∈ required ∧ m ∉ actual := by
  induction required with
  | nil => simp [findMissing]
  | cons r rest ih =>
    by_cases h : r ∈ actual
    · have hc : actual.contains r = true := List.elem_iff.mpr h
      simp only [findMissing, hc, if_pos]
      rw [ih]
      constructor
      · rintro ⟨hm, hm2⟩; exact ⟨List.mem_cons_of_mem r hm, hm2⟩
      · rintro ⟨hm, hm2⟩
        rcases List.mem_cons.mp hm with hm | hm
        · exact absurd (hm ▸ h) hm2
        · exact ⟨hm, hm2⟩
    · have hc : actual.contains r = false := by
        rw [← Bool.not_eq_true]
        exact fun hx => h (List.elem_iff.mp hx)
      simp only [findMissing, hc]
      simp only [Bool.false_eq_true, if_false, List.mem_cons]
      rw [ih]
      constructor
      · rintro (hm | ⟨hm, hm2⟩)
        · exact ⟨Or.inl hm, hm ▸ h⟩
        · exact ⟨Or.inr hm, hm2⟩
      · rintro ⟨hm | hm, hm2⟩
        · exact Or.inl hm
        · exact Or.inr ⟨hm, hm2⟩

/-- Claim C2: as a set, `assembleAvailableMixins` is exactly (builder
common ∩ run common) ∪ builder build-only ∪ run run-only; in particular
with builder common A and run common A,B the result excludes B when B is
neither builder build-only nor run run-only. -/
theorem assembleAvailableMixins_set_characterisation :
    (∀ (builderCommon buildOnly runCommon runOnly : List Str) (x : Str),
      x ∈ assembleAvailableMixins builderCommon buildOnly runCommon runOnly ↔
        ((x ∈ builderCommon ∧ x ∈ runCommon) ∨ x ∈ buildOnly ∨ x ∈ runOnly)) ∧
    str "B" ∉ assembleAvailableMixins [str "A"] [] [str "A", str "B"] [] := by
  constructor
  · intro bc bo rc ro x
    simp only [assembleAvailableMixins, List.mem_append, List.mem_filter, List.elem_iff]
    tauto
  · decide

/-- Claim C7 (counterexample): the output of `findMissing` itself is not
sorted — with `actual` empty and `required` = [b, a] the result is
[b, a], in required order, not in sorted order. -/
theorem findMissing_output_not_sorted :
    findMissing [] [str "b", str "a"] = [str "b", str "a"] ∧
    ¬ StrSorted (findMissing [] [str "b", str "a"]) := by
  constructor
  · decide
  · decide

/-- Claim C7 (amended): `findMissing` returns exactly the elements of
`required` absent from `actual`, preserving the order of `required` (its
output is a sublist of `required`; call sites sort it before use in
error messages); an empty `required` always yields no entries. -/
theorem findMissing_characterisation :
    (∀ (actual required : List Str) (m : Str),
      m ∈ findMissing actual required ↔ m ∈ required ∧ m ∉ actual) ∧
    (∀ actual required : List Str, List.Sublist (findMissing actual required) required) ∧
    (∀ actual : List Str, findMissing actual [] = []) := by
  refine ⟨mem_findMissing, ?_, fun _ => rfl⟩
  intro actual required
  induction required with
  | nil => simp [findMissing]
  | cons r rest ih =>
    by_cases h : actual.contains r
    · simp only [findMissing, h, if_pos]
      exact List.Sublist.cons r ih
    · simp only [findMissing, h]
      simp only [Bool.false_eq_true, if_false]
      exact List.Sublist.cons₂ r ih

/-- Claim C1 (counterexample): the parity check does not succeed
exactly when the run common mixins are a subset of the builder common
mixins — with builder common [m] and run common [] the run set is a
subset of the builder set, yet the check fails (listing m). The check
direction is the converse of the claimed one. -/
theorem validateCommonMixins_direction_counterexample :
    validateCommonMixins [str "m"] [] = some [str "m"] ∧
    ¬ (validateCommonMixins [str "m"] [] = none ↔ ∀ x ∈ ([] : List Str), x ∈ [str "m"]) := by
  constructor
  · decide
  · decide

/-- Claim C1 (amended): the common-mixin parity check succeeds iff the
builder image common mixins are a subset of the run image common mixins
(the run image must provide every mixin the builder declares common);
when it fails, the error enumerates exactly the builder common mixins
absent from the run image, sorted. -/
theorem validateCommonMixins_correct :
    ∀ builderCommon runCommon : List Str,
      (validateCommonMixins builderCommon runCommon = none ↔
        ∀ m ∈ builderCommon, m ∈ runCommon) ∧
      (∀ l, validateCommonMixins builderCommon runCommon = some l →
        StrSorted l ∧ ∀ m, (m ∈ l ↔ m ∈ builderCommon ∧ m ∉ runCommon)) := by
  intro bc rc
  constructor
  · constructor
    · intro h m hm
      by_cases hmem : m ∈ rc
      · exact hmem
      · exfalso
        have hin : m ∈ findMissing rc bc := (mem_findMissing rc bc m).mpr ⟨hm, hmem⟩
        have hpos : (findMissing rc bc).length > 0 := List.length_pos.mpr (List.ne_nil_of_mem hin)
        simp [validateCommonMixins, hpos] at h
    · intro h
      have hempty : findMissing rc bc = [] := by
        rw [List.eq_nil_iff_forall_not_mem]
        intro m hm
        rcases (mem_findMissing rc bc m).mp hm with ⟨h1, h2⟩
        exact h2 (h m h1)
      simp [validateCommonMixins, hempty]
  · intro l hl
    have hform : l = sortStrings (findMissing rc bc) := by
      by_cases hpos : (findMissing rc bc).length > 0
      · simp [validateCommonMixins, hpos] at hl
        exact hl.symm
      · simp [validateCommonMixins, hpos] at hl
    subst hform
    refine ⟨sorted_sortStrings _, fun m => ?_⟩
    rw [mem_sortStrings, mem_findMissing]

/-- Claim C1 amended, instantiated: builder common [a, b] against run
common [b] fails with the sorted enumeration [a], which is sorted. -/
theorem validateCommonMixins_correct_witness :
    validateCommonMixins [str "a", str "b"] [str "b"] = some [str "a"] ∧
    StrSorted [str "a"] :=
  ⟨by decide, ((validateCommonMixins_correct [str "a", str "b"] [str "b"]).2 [str "a"] (by decide)).1⟩

/-- Claim C10: a non-nil explicit proxy config is returned verbatim and
independently of the environment (even when all its fields are empty);
with no explicit config, each upper-case variable wins whenever present
— even when set to the empty string — and the lower-case variant is
consulted (via Getenv, defaulting to empty) only when the upper-case one
is entirely unset. -/
theorem processProxyConfig_correct :
    (∀ (c : ProxyConfig) (env env2 : Str → Option Str),
      processProxyConfig (some c) env = c ∧
      processProxyConfig (some c) env = processProxyConfig (some c) env2) ∧
    (∀ (env : Str → Option Str) (v : Str),
      (env (str "HTTP_PROXY") = some v → (processProxyConfig none env).HTTPProxy = v) ∧
      (env (str "HTTPS_PROXY") = some v → (processProxyConfig none env).HTTPSProxy = v) ∧
      (env (str "NO_PROXY") = some v → (processProxyConfig none env).NoProxy = v)) ∧
    (∀ env : Str → Option Str,
      (env (str "HTTP_PROXY") = none →
        (processProxyConfig none env).HTTPProxy = getenvDefault env (str "http_proxy")) ∧
      (env (str "HTTPS_PROXY") = none →
        (processProxyConfig none env).HTTPSProxy = getenvDefault env (str "https_proxy")) ∧
      (env (str "NO_PROXY") = none →
        (processProxyConfig none env).NoProxy = getenvDefault env (str "no_proxy"))) := by
  refine ⟨fun c env env2 => ⟨rfl, rfl⟩, ?_, ?_⟩
  · intro env v
    refine ⟨fun h => ?_, fun h => ?_, fun h => ?_⟩ <;> simp [processProxyConfig, h]
  · intro env
    refine ⟨fun h => ?_, fun h => ?_, fun h => ?_⟩ <;> simp [processProxyConfig, h]

/-- Claim C10, instantiated: a zero-valued explicit config suppresses a
populated environment; HTTP_PROXY set to the empty string wins over a
populated lower-case variable; with HTTPS_PROXY unset the lower-case
variable is consulted. -/
theorem processProxyConfig_correct_witness :
    processProxyConfig (some ⟨[], [], []⟩)
      (fun k => if k = str "http_proxy" then some (str "proxy1") else none) = ⟨[], [], []⟩ ∧
    (processProxyConfig none
      (fun k => if k = str "HTTP_PROXY" then some [] else
        if k = str "http_proxy" then some (str "proxy1") else
        if k = str "https_proxy" then some (str "proxy2") else none)).HTTPProxy = [] ∧
    (processProxyConfig none
      (fun k => if k = str "HTTP_PROXY" then some [] else
        if k = str "http_proxy" then some (str "proxy1") else
        if k = str "https_proxy" then some (str "proxy2") else none)).HTTPSProxy
      = getenvDefault
        (fun k => if k = str "HTTP_PROXY" then some [] else
          if k = str "http_proxy" then some (str "proxy1") else
          if k = str "https_proxy" then some (str "proxy2") else none) (str "https_proxy") :=
  ⟨(processProxyConfig_correct.1 ⟨[], [], []⟩
      (fun k => if k = str "http_proxy" then some (str "proxy1") else none)
      (fun _ => none)).1,
   ((processProxyConfig_correct.2.1
      (fun k => if k = str "HTTP_PROXY" then some [] else
        if k = str "http_proxy" then some (str "proxy1") else
        if k = str "https_proxy" then some (str "proxy2") else none) []).1 (by decide)),
   ((processProxyConfig_correct.2.2
      (fun k => if k = str "HTTP_PROXY" then some [] else
        if k = str "http_proxy" then some (str "proxy1") else
        if k = str "https_proxy" then some (str "proxy2") else none)).2.1 (by decide))⟩

theorem goSplitAt_ne_nil (l : Str) : goSplitAt l ≠ [] := by
  cases l with
  | nil => simp [goSplitAt]
  | cons c rest =>
    simp only [goSplitAt]
    rcases h : goSplitAt rest with _ | ⟨p, ps⟩
    · simp
    · by_cases hc : c = '@' <;> simp [hc]

theorem goSplitAt_no_sep (l : Str) (h : '@' ∉ l) : goSplitAt l = [l] := by
  induction l with
  | nil => rfl
  | cons c rest ih =>
    have hc : ¬ c = '@' := fun e => h (e ▸ List.mem_cons_self c rest)
    have h2 : '@' ∉ rest := fun hm => h (List.mem_cons_of_mem c hm)
    simp only [goSplitAt, ih h2]
    simp [hc]

theorem goSplitAt_append (a rest : Str) (h : '@' ∉ a) :
    goSplitAt (a ++ '@' :: rest) = a :: goSplitAt rest := by
  induction a with
  | nil =>
    simp only [List.nil_append, goSplitAt]
    rcases hg : goSplitAt rest with _ | ⟨p, ps⟩
    · exact absurd hg (goSplitAt_ne_nil rest)
    · simp
  | cons c a ih =>
    have hc : ¬ c = '@' := fun e => h (e ▸ List.mem_cons_self c a)
    have h2 : '@' ∉ a := fun hm => h (List.mem_cons_of_mem c hm)
    have hstep : goSplitAt (c :: (a ++ '@' :: rest)) =
        (match goSplitAt (a ++ '@' :: rest) with
          | [] => [[c]]
          | p :: ps => if c = '@' then [] :: p :: ps else (c :: p) :: ps) := rfl
    rw [List.cons_append, hstep, ih h2]
    simp [hc]

/-- Claim C9: `parseBuildpack` splits the token on the `@` separator: a
token id@v with v other than `latest` yields (id, v); id@latest yields
(id, empty), treating the version as unspecified; a token with no
separator, or with two or more separators, yields the first segment with
an empty version — so a token a@b@c silently drops the version. -/
theorem parseBuildpack_correct :
    ∀ bpId v w : Str, '@' ∉ bpId → '@' ∉ v →
      (v ≠ latestStr → parseBuildpack (bpId ++ '@' :: v) = (bpId, v)) ∧
      parseBuildpack (bpId ++ '@' :: latestStr) = (bpId, []) ∧
      parseBuildpack bpId = (bpId, []) ∧
      parseBuildpack (bpId ++ '@' :: (v ++ '@' :: w)) = (bpId, []) := by
  intro bpId v w hid hv
  have hlatest : '@' ∉ latestStr := by decide
  refine ⟨?_, ?_, ?_, ?_⟩
  · intro hne
    rw [parseBuildpack, goSplitAt_append bpId v hid, goSplitAt_no_sep v hv]
    simp [hne]
  · rw [parseBuildpack, goSplitAt_append bpId latestStr hid, goSplitAt_no_sep latestStr hlatest]
    simp
  · rw [parseBuildpack, goSplitAt_no_sep bpId hid]
    rfl
  · rw [parseBuildpack, goSplitAt_append bpId (v ++ '@' :: w) hid, goSplitAt_append v w hv]
    rcases hg : goSplitAt w with _ | ⟨p, ps⟩
    · exact absurd hg (goSplitAt_ne_nil w)
    · rfl

/-- Claim C9, instantiated on the tokens a@b, a@latest, a and a@b@c. -/
theorem parseBuildpack_correct_witness :
    parseBuildpack (str "a" ++ '@' :: str "b") = (str "a", str "b") ∧
    parseBuildpack (str "a" ++ '@' :: latestStr) = (str "a", []) ∧
    parseBuildpack (str "a") = (str "a", []) ∧
    parseBuildpack (str "a" ++ '@' :: (str "b" ++ '@' :: str "c")) = (str "a", []) := by
  have h := parseBuildpack_correct (str "a") (str "b") (str "c") (by decide) (by decide)
  exact ⟨h.1 (by decide), h.2.1, h.2.2.1, h.2.2.2⟩

theorem build_log_of_not_composed (d : BuildDeps) (h : composedSuccessfully d = false) :
    (build d).2 = [] := by
  obtain ⟨a1, a2, a3, a4, a5, a6, a7, rn, a9, a10, a11, a12, sn, a14, a15⟩ := d
  cases a1 with
  | false => simp [build]
  | true =>
  cases a2 with
  | false => simp [build]
  | true =>
  cases a3 with
  | false => simp [build]
  | true =>
  cases a4 with
  | false => simp [build]
  | true =>
  cases a5 with
  | false => simp [build]
  | true =>
  cases a6 with
  | false => simp [build]
  | true =>
  cases a7 with
  | false => simp [build]
  | true =>
  cases hrn : rn.isEmpty with
  | true => simp [build, hrn]
  | false =>
  cases a9 with
  | false => simp [build, hrn]
  | true =>
  cases a10 with
  | false => simp [build, hrn]
  | true =>
  cases a11 with
  | false => simp [build, hrn]
  | true =>
  cases a12 with
  | false => simp [build, hrn]
  | true => simp [composedSuccessfully, hrn] at h

/-- Claim C8: once the ephemeral builder has been successfully composed
inside `Build`, the deferred docker removal of the scratch image runs on
every exit path — it is the last recorded effect and occurs exactly
once, whether the platform API check and the lifecycle execution succeed
or fail; before a successful composition no removal happens. -/
theorem build_always_removes_scratch :
    ∀ d : BuildDeps,
      (composedSuccessfully d = true →
        ((build d).2.count (BuildEff.imageRemove d.scratchName) = 1 ∧
          (build d).2.getLast? = some (BuildEff.imageRemove d.scratchName))) ∧
      (composedSuccessfully d = false →
        (build d).2.count (BuildEff.imageRemove d.scratchName) = 0) := by
  intro d
  constructor
  · intro h
    obtain ⟨a1, a2, a3, a4, a5, a6, a7, rn, a9, a10, a11, a12, sn, a14, a15⟩ := d
    simp only [composedSuccessfully, Bool.and_eq_true, and_assoc, Bool.not_eq_true'] at h
    obtain ⟨h1, h2, h3, h4, h5, h6, h7, h8, h9, h10, h11, h12⟩ := h
    cases a14 <;> cases a15 <;>
      simp [build, h1, h2, h3, h4, h5, h6, h7, h8, h9, h10, h11, h12,
        List.count_append, List.count_cons, List.count_nil]
  · intro h
    rw [build_log_of_not_composed d h]
    rfl

/-- Claim C8, instantiated: with every step up to composition succeeding
and the platform API check then failing, the scratch image is still
removed exactly once; with the builder fetch failing before composition,
no image is removed. -/
theorem build_always_removes_scratch_witness :
    (build ⟨true, true, true, true, true, true, true, str "run", true, true, true, true,
        str "scratch", false, false⟩).2.count (BuildEff.imageRemove (str "scratch")) = 1 ∧
    (build ⟨true, true, true, false, true, true, true, str "run", true, true, true, true,
        str "scratch", true, true⟩).2.count (BuildEff.imageRemove (str "scratch")) = 0 :=
  ⟨((build_always_removes_scratch ⟨true, true, true, true, true, true, true, str "run", true,
      true, true, true, str "scratch", false, false⟩).1 (by decide)).1,
   (build_always_removes_scratch ⟨true, true, true, false, true, true, true, str "run", true,
      true, true, true, str "scratch", true, true⟩).2 (by decide)⟩

/-- Claim C3 (counterexample): `createEphemeralBuilder` renames the base
image handle itself — there is no separate working copy. After
composition the handle no longer carries its original name
my-builder but the synthetic scratch name. -/
theorem createEphemeralBuilder_renames_base :
    (createEphemeralBuilder (α := Nat) ⟨str "my-builder", 0⟩ [(str "my-builder", 0)]
        (str "ab") (fun c => c)).1.name ≠ str "my-builder" ∧
    (createEphemeralBuilder (α := Nat) ⟨str "my-builder", 0⟩ [(str "my-builder", 0)]
        (str "ab") (fun c => c)).1.name = scratchNameOf (str "ab") := by
  constructor
  · decide
  · rfl

/-- Claim C3 (amended): composing an ephemeral builder renames the base
image handle in place to the synthetic scratch reference (no separate
working copy exists), but the composed image is persisted only under the
scratch reference, so the stored base image remains fetchable under its
original name whenever that name differs from the generated scratch
name. -/
theorem createEphemeralBuilder_preserves_store :
    ∀ (α : Type) (base : ImageHandle α) (store : List (Str × α)) (suffix : Str)
      (compose : α → α),
      (createEphemeralBuilder base store suffix compose).1.name = scratchNameOf suffix ∧
      (base.name ≠ scratchNameOf suffix →
        storeFetch (createEphemeralBuilder base store suffix compose).2 base.name =
          storeFetch store base.name) := by
  intro α base store suffix compose
  refine ⟨rfl, fun h => ?_⟩
  have hbeq : (scratchNameOf suffix == base.name) = false := by
    rw [beq_eq_false_iff_ne]
    exact fun e => h e.symm
  simp [createEphemeralBuilder, storeSave, storeFetch, renameImage, List.find?, hbeq]

/-- Claim C3 amended, instantiated: after composing from base b the
store still resolves b to its original content. -/
theorem createEphemeralBuilder_preserves_store_witness :
    storeFetch (createEphemeralBuilder (α := Nat) ⟨str "b", 5⟩ [(str "b", 5)] (str "x")
        (fun c => c + 1)).2 (str "b") = storeFetch [((str "b" : Str), 5)] (str "b") :=
  (createEphemeralBuilder_preserves_store Nat ⟨str "b", 5⟩ [(str "b", 5)] (str "x")
    (fun c => c + 1)).2 (by decide)

/-- Claim C6 (spec-modelled): §4.2 `Save` with no default buildpack set
fails with the default-required error; with a default set whose identity
is not among the included buildpacks, it fails naming the missing
identity. In both cases no image effect is produced. -/
theorem specSave_default_validation :
    ∀ (p : SpecPackageBuilder) (repoName : Str) (publish : Bool) (env : Nat → Bool),
      (p.defaultInfo = none →
        specSave p repoName publish env =
          (.error (str "a default buildpack must be set"), [])) ∧
      (∀ d, p.defaultInfo = some d → (∀ bp ∈ p.buildpacks, bp.Info ≠ d) →
        specSave p repoName publish env =
          (.error (str "selected default " ++ fullName d ++ str " is not present"), [])) := by
  intro p repoName publish env
  constructor
  · intro h
    simp [specSave, specValidate, h]
  · intro d hd hall
    have hfind : p.buildpacks.find? (fun b => b.Info == d) = none := by
      rw [List.find?_eq_none]
      intro b hb
      simp only [beq_iff_eq]
      exact fun e => hall b hb e
    simp [specSave, specValidate, hd, hfind]

/-- Claim C6, instantiated: an empty builder state and a state whose
default names an identity that is not included. -/
theorem specSave_default_validation_witness :
    specSave ⟨none, [], []⟩ (str "some/package") false (fun _ => true) =
      (.error (str "a default buildpack must be set"), []) ∧
    specSave ⟨some ⟨str "bp.1.id", str "bp.1.version"⟩, [], []⟩ (str "some/package") false
        (fun _ => true) =
      (.error (str "selected default " ++ fullName ⟨str "bp.1.id", str "bp.1.version"⟩ ++
        str " is not present"), []) :=
  ⟨(specSave_default_validation ⟨none, [], []⟩ (str "some/package") false (fun _ => true)).1 rfl,
   (specSave_default_validation ⟨some ⟨str "bp.1.id", str "bp.1.version"⟩, [], []⟩
      (str "some/package") false (fun _ => true)).2 ⟨str "bp.1.id", str "bp.1.version"⟩ rfl
      (by simp)⟩

/-- Claim C5 (counterexample): the duplicate-stack failure is not the
one reported for every state with a repeated stack ID — with no default
buildpack set and the stack zzz declared twice, `Save` fails with the
default-required message, which does not mention the duplicated ID (it
contains no z at all). -/
theorem specSave_duplicate_counterexample :
    firstDuplicateId [] [Stack.mk (str "zzz") [], Stack.mk (str "zzz") []] = some (str "zzz") ∧
    specSave ⟨none, [], [Stack.mk (str "zzz") [], Stack.mk (str "zzz") []]⟩
        (str "some/package") false (fun _ => true) =
      (.error (str "a default buildpack must be set"), []) ∧
    'z' ∉ str "a default buildpack must be set" := by
  refine ⟨by decide, rfl, by decide⟩

/-- Claim C5 (spec-modelled, amended): for every state that passes the
earlier default-buildpack validations (a default is set and included)
and declares some stack ID more than once, §4.2 `Save` fails with the
duplicate-stack error naming the first repeated ID and produces no image
effect. -/
theorem specSave_duplicate_stack :
    ∀ (p : SpecPackageBuilder) (repoName : Str) (publish : Bool) (env : Nat → Bool)
      (d : BuildpackInfo) (i : Str),
      p.defaultInfo = some d →
      (p.buildpacks.find? (fun b => b.Info == d)).isSome = true →
      firstDuplicateId [] p.stackList = some i →
      specSave p repoName publish env =
        (.error (str "stack " ++ i ++ str " was specified more than once"), []) := by
  intro p repoName publish env d i hd hfind hdup
  rcases Option.isSome_iff_exists.mp hfind with ⟨b, hb⟩
  simp [specSave, specValidate, hd, hb, hdup]

/-- Claim C5 amended, instantiated: default set and included, stack s
declared twice. -/
theorem specSave_duplicate_stack_witness :
    specSave ⟨some ⟨str "b", str "1"⟩,
        [⟨⟨str "b", str "1"⟩, [Stack.mk (str "s") []], []⟩],
        [Stack.mk (str "s") [], Stack.mk (str "s") []]⟩
      (str "some/package") false (fun _ => true) =
      (.error (str "stack " ++ str "s" ++ str " was specified more than once"), []) :=
  specSave_duplicate_stack ⟨some ⟨str "b", str "1"⟩,
      [⟨⟨str "b", str "1"⟩, [Stack.mk (str "s") []], []⟩],
      [Stack.mk (str "s") [], Stack.mk (str "s") []]⟩
    (str "some/package") false (fun _ => true) ⟨str "b", str "1"⟩ (str "s")
    rfl (by decide) (by decide)

theorem execCalls_spec (env : Nat → Bool) :
    ∀ (calls : List Eff) (k : Nat),
      execCalls env calls k = (none, calls) ∨
      ∃ e l1 l2, calls = l1 ++ e :: l2 ∧ execCalls env calls k = (some e, l1) := by
  intro calls
  induction calls with
  | nil => intro k; left; rfl
  | cons e rest ih =>
    intro k
    by_cases hk : env k = true
    · rcases ih (k + 1) with h | ⟨f, l1, l2, hsplit, hexec⟩
      · left; simp [execCalls, hk, h]
      · right
        exact ⟨f, e :: l1, l2, by rw [List.cons_append, ← hsplit],
          by simp [execCalls, hk, hexec]⟩
    · right
      refine ⟨e, [], rest, rfl, ?_⟩
      simp [execCalls, hk]

theorem not_mem_left_of_append_last {α : Type} (l1 l2 front : List α) (e x : α)
    (hsplit : l1 ++ e :: l2 = front ++ [x]) (hx : x ∉ front) : x ∉ l1 := by
  intro hmem
  have hlen : l1.length ≤ front.length := by
    have hl := congrArg List.length hsplit
    simp [List.length_append] at hl
    omega
  have htake : l1 = List.take l1.length front := by
    calc l1 = List.take l1.length (l1 ++ e :: l2) := (List.take_left l1 (e :: l2)).symm
      _ = List.take l1.length (front ++ [x]) := by rw [hsplit]
      _ = List.take l1.length front ++ List.take (l1.length - front.length) [x] :=
        List.take_append_eq_append_take
      _ = List.take l1.length front := by
        rw [Nat.sub_eq_zero_of_le hlen]
        simp
  exact hx (List.take_subset l1.length front (htake ▸ hmem))

theorem saveCalls_decomp (p : PackageBuilder) (bp : BuildpackDescriptor) (repoName : Str)
    (publish : Bool) :
    saveCalls p bp repoName publish =
      ([Eff.newImage repoName (!publish), Eff.setLabel metadataLabel, Eff.tempDir] ++
        ((p.dependencies ++ [bp]).flatMap
          (fun d => [Eff.layerTar d.Info, Eff.addLayer d.Info, Eff.diffID d.Info])) ++
        [Eff.setLabel buildpackLayersLabel]) ++ [Eff.imageSave] ∧
    Eff.imageSave ∉
      ([Eff.newImage repoName (!publish), Eff.setLabel metadataLabel, Eff.tempDir] ++
        ((p.dependencies ++ [bp]).flatMap
          (fun d => [Eff.layerTar d.Info, Eff.addLayer d.Info, Eff.diffID d.Info])) ++
        [Eff.setLabel buildpackLayersLabel]) ∧
    Eff.tempDir ∈ saveCalls p bp repoName publish := by
  refine ⟨by simp [saveCalls], ?_, by simp [saveCalls]⟩
  simp [List.mem_append, List.mem_flatMap]

/-- Claim C4: in `PackageBuilder.Save` every validation failure is
raised before any image handle is created or any layer or label written
— the effect log of a validation error is empty; on a failure at any
step nothing is persisted (the image-store save completes zero times);
on success the image-store save completes exactly once. -/
theorem packageSave_no_partial_persistence :
    ∀ (p : PackageBuilder) (repoName : Str) (publish : Bool) (env : Nat → Bool),
      (∀ e, validatePackage p = .error e →
        packageSave p repoName publish env = (.error e, [])) ∧
      ((packageSave p repoName publish env).1 = .ok () →
        List.count Eff.imageSave (packageSave p repoName publish env).2 = 1) ∧
      (∀ e, (packageSave p repoName publish env).1 = .error e →
        List.count Eff.imageSave (packageSave p repoName publish env).2 = 0) := by
  intro p repoName publish env
  rcases hv : validatePackage p with e0 | ⟨bp, stks⟩
  · refine ⟨?_, ?_, ?_⟩
    · intro e he
      injection he with he2
      subst he2
      simp [packageSave, hv]
    · intro hok
      simp [packageSave, hv] at hok
    · intro e he
      simp [packageSave, hv]
  · obtain ⟨hfr, hnm, htd⟩ := saveCalls_decomp p bp repoName publish
    rcases execCalls_spec env (saveCalls p bp repoName publish) 0 with hex | ⟨f, l1, l2, hsplit, hex⟩
    · have hcontains : (saveCalls p bp repoName publish).contains Eff.tempDir = true :=
        List.elem_iff.mpr htd
      have hps : packageSave p repoName publish env =
          (.ok (), saveCalls p bp repoName publish ++ [Eff.removeTmp]) := by
        simp [packageSave, hv, hex, htd]
      refine ⟨?_, ?_, ?_⟩
      · intro e he
        exact Except.noConfusion he
      · intro _
        rw [hps, List.count_append, hfr, List.count_append, List.count_eq_zero.mpr hnm]
        decide
      · intro e he
        rw [hps] at he
        simp at he
    · have hnotmem : Eff.imageSave ∉ l1 :=
        not_mem_left_of_append_last l1 l2 _ f Eff.imageSave (hsplit.symm.trans hfr) hnm
      have hcount1 : List.count Eff.imageSave l1 = 0 := List.count_eq_zero.mpr hnotmem
      have hps : packageSave p repoName publish env =
          (.error (str "external call failed: " ++ effName f),
            if l1.contains Eff.tempDir then l1 ++ [Eff.removeTmp] else l1) := by
        simp [packageSave, hv, hex]
      refine ⟨?_, ?_, ?_⟩
      · intro e he
        exact Except.noConfusion he
      · intro hok
        rw [hps] at hok
        simp at hok
      · intro e he
        rw [hps]
        by_cases hc : Eff.tempDir ∈ l1
        · simp [hc, List.count_append, List.count_cons, List.count_nil, hcount1,
            show (Eff.imageSave == Eff.removeTmp) = false from rfl]
        · simp [hc, hcount1]

/-- Claim C4, instantiated: a validation failure produces an empty
effect log; a fully successful run persists exactly once; a run whose
fourth external call fails persists zero times. -/
theorem packageSave_no_partial_persistence_witness :
    packageSave ⟨none, []⟩ (str "repo") false (fun _ => true) =
      (.error (str "buildpack must be set"), []) ∧
    List.count Eff.imageSave
      (packageSave ⟨some ⟨⟨str "b", str "1"⟩, [Stack.mk (str "s") []], []⟩, []⟩
        (str "repo") false (fun _ => true)).2 = 1 ∧
    List.count Eff.imageSave
      (packageSave ⟨some ⟨⟨str "b", str "1"⟩, [Stack.mk (str "s") []], []⟩, []⟩
        (str "repo") false (fun k => decide (k < 3))).2 = 0 :=
  ⟨(packageSave_no_partial_persistence ⟨none, []⟩ (str "repo") false (fun _ => true)).1
      (str "buildpack must be set") rfl,
   (packageSave_no_partial_persistence ⟨some ⟨⟨str "b", str "1"⟩, [Stack.mk (str "s") []], []⟩, []⟩
      (str "repo") false (fun _ => true)).2.1 rfl,
   (packageSave_no_partial_persistence ⟨some ⟨⟨str "b", str "1"⟩, [Stack.mk (str "s") []], []⟩, []⟩
      (str "repo") false (fun k => decide (k < 3))).2.2
      (str "external call failed: " ++ effName (Eff.layerTar ⟨str "b", str "1"⟩)) rfl⟩
